import Mathlib

/-!
Shallow embedding of the exact-arithmetic linear-system reducer
(`maths/reduce.py`, class `System`) and verification of the spec's claims
about it.

Conventions of the source kept here:
* a "(rational)" row is a `List Int` whose last entry is an implicit
  denominator for the earlier entries (`problem`, `inverse` rows);
* `available`, `recipe`, `kernel` rows and the transient working rows are
  plain integer sequences;
* Python 2 integer division only ever occurs when the divisor divides
  every entry exactly, so `Int` division (`/`) agrees with it at every
  occurrence below.
-/

abbrev Row := List Int

/-- Modelled from the spec: `natural.hcf` is imported by the reducer from a
module that is not among the analysed sources.  Per the spec every accepted
row is "reduced by dividing all entries (including denominator) by their
exact greatest common divisor", so `hcf` is the nonnegative greatest common
divisor of any number of integers (0 when all are 0). -/
def hcf (l : List Int) : Int :=
  (l.foldl (fun a x => Nat.gcd a x.natAbs) 0 : Nat)

/-- Modelled from the spec: `natural.lcm`, the nonnegative least common
multiple of any number of integers, used on the (positive) denominators
collected during `denominate`. -/
def lcmList (l : List Int) : Int :=
  l.foldl (fun a x => (Int.lcm a x : Int)) 1

/-- Zero-pad a row on the right to length `n` (rows already at least that
long are returned unchanged), as the `while len(r) < n: r.append(0)` loops
of `__ingest`, `contract` and `obtain` do. -/
def pad (r : Row) (n : Nat) : Row := r ++ List.replicate (n - r.length) 0

/-- Python `list.insert(i, x)`: insert before position `i`, appending when
`i` is past the end. -/
def pyInsert (l : List α) (i : Nat) (a : α) : List α :=
  l.take i ++ [a] ++ l.drop i

/-- Divide the first `m` entries of a row by `f`, leaving the rest alone.
`System.__take` runs its reduction loop over `len(self.__result[j])`
entries and applies it to the matrix row and the result row alike, so the
matrix row is only divided up to that length. -/
def divUpTo (r : Row) (m : Nat) (f : Int) : Row :=
  (List.range r.length).map (fun k => if k < m then r.getD k 0 / f else r.getD k 0)

/-- The `ValueError`s the class can raise, tagged with the data the source
puts in the exception arguments. -/
inductive SysError where
  | overLongRow (row : Row)
  | zeroDenominator (row : Row)
  | irreducibleComposites (co : List Nat)
  | tooManyEntries (row : Row)
deriving DecidableEq, Repr

/-- The errors `__ingest` can produce (the spec's `MalformedRow` taxon). -/
def isMalformedRowError : SysError → Prop
  | .overLongRow _ => True
  | .zeroDenominator _ => True
  | _ => False

instance : DecidablePred isMalformedRowError := by
  intro e
  cases e <;> simp [isMalformedRowError] <;> infer_instance

/-- The final normalisation of an accepted explicit-denominator row in
`System.__ingest`: divide everything by the (sign-adjusted) hcf. -/
def reduceRow (r : Row) (n : Nat) : Row :=
  let f0 : Int := hcf r
  let f : Int := if r.getD n 0 < 0 then -f0 else f0
  if 1 < f ∨ f < 0 then r.map (fun x => x / f) else r

/-- One row of `System.__ingest`: reject over-long rows, zero-pad, append
an implicit denominator 1 to rows of length `n`, reject a zero explicit
denominator, and gcd/sign-normalise the rest. -/
def ingestRow (n : Nat) (row : Row) : Except SysError Row :=
  if n + 1 < row.length then .error (.overLongRow row)
  else if (pad row n).length = n then .ok (pad row n ++ [1])
  else if (pad row n).getD n 0 = 0 then .error (.zeroDenominator row)
  else .ok (reduceRow (pad row n) n)

/-- `System.__ingest`, processing the constructor's rows in order and
stopping at the first offending row. -/
def ingest (n : Nat) : List Row → Except SysError (List Row)
  | [] => .ok []
  | row :: rest =>
    match ingestRow n row with
    | .error e => .error e
    | .ok r =>
      match ingest n rest with
      | .error e => .error e
      | .ok rs => .ok (r :: rs)

/-- The constructed object: `__ca = (dim, nAvail)` plus the ingested
`problem` matrix (rational rows of width `dim + 1`). -/
structure System where
  dim : Nat
  nAvail : Nat
  problem : List Row
deriving DecidableEq, Repr

/-- `System.__init__`: record `__ca` and ingest the rows; any `ValueError`
is raised synchronously, before an object exists. -/
def mkSystem (n : Nat) (rows : List Row) : Except SysError System :=
  (ingest n rows).map (fun p => ⟨n, rows.length, p⟩)

/-- The descending accumulation loop of the local function `dragwith`:
starting from `(tot, den) = (0, 1)`, fold in `row[k] * matrix[k][j]` over
`matrix[k]`'s trailing denominator, reducing by the gcd at each step. -/
def dragGo (matrix : List Row) (j : Nat) (row : Row) : Nat → Int × Int → Int × Int
  | 0, td => td
  | k + 1, (tot, den) =>
    let right := matrix.getD k []
    let v := row.getD k 0 * right.getD j 0
    let s := right.getLastD 0
    let tot1 := tot * s + v * den
    let den1 := den * s
    let f : Int := (Int.gcd tot1 den1 : Nat)
    dragGo matrix j row k (if 1 < f then (tot1 / f, den1 / f) else (tot1, den1))

/-- `dragwith(matrix, j, row)`: the exact rational dot product of the
integer row `row` with column `j` of the rational matrix, returned as a
reduced `(numerator, denominator)` pair. -/
def dragwith (matrix : List Row) (j : Nat) (row : Row) : Int × Int :=
  dragGo matrix j row row.length (0, 1)

/-- `denominate(pairs, scale)`: put a list of exact fractions over their
lcm denominator, append `den * scale`, and gcd/sign-normalise. -/
def denominate (pairs : List (Int × Int)) (scale : Int) : Row :=
  let den := lcmList (pairs.map (fun p => p.2))
  let ans := pairs.map (fun p => p.1 * den / p.2) ++ [den * scale]
  let f0 : Int := hcf ans
  let f : Int := if ans.getLastD 0 < 0 then -f0 else f0
  if 1 < f ∨ f < 0 then ans.map (fun x => x / f) else ans

/-- `System.contract`: weighted sum of the problem rows, with the same
pad/explicit-denominator convention as ingestion, via `__lincomb`. -/
def contract (sys : System) (row : Row) : Except SysError Row :=
  if sys.nAvail + 1 < row.length then .error (.tooManyEntries row)
  else
    let r1 := pad row sys.nAvail
    let r2 := if sys.nAvail < r1.length then r1.take sys.nAvail else r1
    let sc : Int := if sys.nAvail < r1.length then r1.getD sys.nAvail 0 else 1
    .ok (denominate ((List.range sys.dim).map (fun j => dragwith sys.problem j r2)) sc)

/-- The transient working state of the analysis: `__matrix`, `__result`
and the virtual column permutation `__column`. -/
structure WState where
  matrix : List Row
  result : List Row
  column : List Nat
deriving DecidableEq, Repr

/-- `System.__entry(i, j) = __matrix[i][__column[j]]`. -/
def entry (s : WState) (i j : Nat) : Int :=
  (s.matrix.getD i []).getD (s.column.getD j 0) 0

/-- The local function `scaling`: the diagonal matrix of a list. -/
def scaling (dens : List Int) : List Row :=
  (List.range dens.length).map
    (fun i => (List.range dens.length).map (fun j => if j = i then dens.getD i 0 else 0))

/-- `System.__setup`: strip the problem's denominators into the diagonal
of `__result`, keep the numerators as `__matrix`, identity `__column`. -/
def setup (sys : System) : WState :=
  { matrix := sys.problem.map (fun r => r.dropLast)
    result := scaling (sys.problem.map (fun r => r.getLastD 0))
    column := List.range sys.dim }

/-- `max(abs(r) for r in rs)`, the peak of a row (0 for an empty row). -/
def peak (r : Row) : Int := r.foldl (fun a x => max a |x|) 0

/-- Swap two entries of a list (used for rows and for `__column`). -/
def swapList [Inhabited α] (l : List α) (i j : Nat) : List α :=
  (l.set i (l.getD j default)).set j (l.getD i default)

/-- `System.__swap`: swap rows `i` and `j` of `__matrix` and `__result`
in lock-step. -/
def swapRows (s : WState) (i j : Nat) : WState :=
  { s with matrix := swapList s.matrix i j, result := swapList s.result i j }

/-- The row-choosing loop of `System.__select`: scan rows `j < ava` while
the best peak so far is not 1, keeping the smallest non-zero peak. -/
def selRowGo (mat : List Row) (ava : Nat) : Nat → Nat → Nat → Int → Nat × Int
  | 0, _, k, m => (k, m)
  | fuel + 1, j, k, m =>
    if j < ava ∧ m ≠ 1 then
      let n := peak (mat.getD j [])
      if n ≠ 0 ∧ (m = 0 ∨ n < m) then selRowGo mat ava fuel (j + 1) j n
      else selRowGo mat ava fuel (j + 1) k m
    else (k, m)

/-- The column-choosing loop of `System.__select`: scan virtual columns
`j < dim` of row `i`, keeping the smallest non-zero absolute entry. -/
def selColGo (s : WState) (dim i : Nat) : Nat → Nat → Nat → Int → Nat × Int
  | 0, _, k, m => (k, m)
  | fuel + 1, j, k, m =>
    if j < dim ∧ m ≠ 1 then
      let n := |entry s i j|
      if n ≠ 0 ∧ (m = 0 ∨ n < m) then selColGo s dim i fuel (j + 1) j n
      else selColGo s dim i fuel (j + 1) k m
    else (k, m)

/-- `System.__select(i)`: swap the row with the smallest non-zero peak
into row `i`, then swap its smallest non-zero entry into virtual column
`i` via `__column` (no-op when the remaining rows are all zero). -/
def select (dim ava : Nat) (s : WState) (i : Nat) : WState :=
  let km := selRowGo s.matrix ava ava (i + 1) i (peak (s.matrix.getD i []))
  if km.2 = 0 then s
  else
    let s1 := if km.1 ≠ i then swapRows s i km.1 else s
    let kc := selColGo s1 dim i dim (i + 1) i |entry s1 i i|
    if kc.1 ≠ i then { s1 with column := swapList s1.column i kc.1 } else s1

/-- The combination step of `System.__take` on one row:
`row[k] = row[k] * nj - top[k] * ni` over `len(row)` entries. -/
def combineRow (top row : Row) (ni nj : Int) : Row :=
  (List.range row.length).map (fun k => row.getD k 0 * nj - top.getD k 0 * ni)

/-- `System.__take(i, ni, j, nj)`: replace row `j` of `__matrix` and of
`__result` by the same linear combination with row `i`, then divide by the
sign-adjusted hcf of the two combined rows.  The division loop runs over
`len(__result[j])` entries of both rows, exactly as in the source. -/
def takeOp (s : WState) (i : Nat) (ni : Int) (j : Nat) (nj : Int) : WState :=
  let mj := combineRow (s.matrix.getD i []) (s.matrix.getD j []) ni nj
  let rj := combineRow (s.result.getD i []) (s.result.getD j []) ni nj
  let f0 : Int := hcf (mj ++ rj)
  let f : Int := if (mj.filter (fun x => x ≠ 0)).headD 0 < 0 then -f0 else f0
  if 1 < f ∨ f < 0 then
    { s with matrix := s.matrix.set j (divUpTo mj rj.length f)
             result := s.result.set j (rj.map (fun x => x / f)) }
  else
    { s with matrix := s.matrix.set j mj, result := s.result.set j rj }

/-- The inner loop of `System.__upper`: clear `__entry(j, i)` for
`j = i+1, ..., ava-1` using pivot row `i` with pivot value `key`. -/
def elimGo (s : WState) (i : Nat) (key : Int) (j : Nat) : Nat → WState
  | 0 => s
  | count + 1 =>
    let q := entry s j i
    elimGo (if q ≠ 0 then takeOp s i q j key else s) i key (j + 1) count

/-- The outer loop of `System.__upper`, stopping early when the selected
pivot is zero. -/
def upperGo (dim ava : Nat) : Nat → WState → Nat → WState
  | 0, s, _ => s
  | fuel + 1, s, i =>
    let s1 := select dim ava s i
    let key := entry s1 i i
    if key = 0 then s1
    else upperGo dim ava fuel (elimGo s1 i key (i + 1) (ava - (i + 1))) (i + 1)

/-- `System.__upper`: reduce `__matrix` to upper triangular form. -/
def upper (dim ava : Nat) (s : WState) : WState :=
  upperGo dim ava (min dim ava) s 0

/-- The inner loop of `System.__diag`: for pivot `i` with value `num`,
clear `__entry(j, i)` for every other row `j`, scanning `j` from `ava - 1`
down to 0. -/
def diagInner (s : WState) (i : Nat) (num : Int) : Nat → WState
  | 0 => s
  | j + 1 =>
    if j = i then diagInner s i num j
    else
      let n := entry s j i
      diagInner (if n ≠ 0 then takeOp s i n j num else s) i num j

/-- The outer loop of `System.__diag`, scanning pivots from
`min dim ava - 1` down to 0 and skipping zero pivots. -/
def diagGo (ava : Nat) : WState → Nat → WState
  | s, 0 => s
  | s, i + 1 =>
    let num := entry s i i
    diagGo ava (if num = 0 then s else diagInner s i num ava) i

/-- `System.__diag`: reduce the upper-triangular `__matrix` to diagonal
form. -/
def diag (dim ava : Nat) (s : WState) : WState :=
  diagGo ava s (min dim ava)

/-- A row with no non-zero entry. -/
def isZeroRow (r : Row) : Bool := r.all (fun x => x == 0)

/-- The number of leading zero entries of a row. -/
def indentOf (r : Row) : Nat := (r.takeWhile (fun x => x == 0)).length

/-- The matrix/result row pairs `__tidy` keeps: those whose matrix row is
not entirely zero. -/
def keptPairs (ms rs : List Row) : List (Row × Row) :=
  (ms.zip rs).filter (fun p => !(isZeroRow p.1))

/-- The degenerate result rows `__tidy` moves to the kernel: matrix row
zero, result row non-zero.  `__tidy` walks the rows from the last one
downwards, so they are collected in descending row order. -/
def degenRows (ms rs : List Row) : List Row :=
  ((((ms.zip rs).filter (fun p => isZeroRow p.1 && !(isZeroRow p.2))).map
    (fun p => p.2)).reverse)

/-- Stable insertion of index `i` into an index list sorted by `keys`. -/
def insertIdxBy (keys : List Nat) (i : Nat) : List Nat → List Nat
  | [] => [i]
  | j :: rest =>
    if keys.getD i 0 < keys.getD j 0 then i :: j :: rest
    else j :: insertIdxBy keys i rest

/-- Modelled from the spec: `permute.order` is imported by the reducer
from a module that is not among the analysed sources.  The spec says the
remaining rows are "sorted by the count of leading zero entries
(ascending) — establishing a deterministic, reproducible ordering", so we
model `order` as the stable sorting permutation for the given keys. -/
def order (keys : List Nat) : List Nat :=
  (List.range keys.length).foldl (fun acc i => insertIdxBy keys i acc) []

/-- Modelled from the spec: `permute.permute` applies a permutation to a
sequence of rows; entry `i` of the output is row `perm[i]` of the input. -/
def permuteBy (l : List Row) (perm : List Nat) : List Row :=
  perm.map (fun p => l.getD p [])

/-- `System.__tidy`: purge zero matrix rows (collecting true dependencies
into the kernel), then order the surviving available/recipe pairs by
ascending indent. -/
def tidy (s : WState) : List Row × List Row × List Row :=
  let kept := keptPairs s.matrix s.result
  let avail := kept.map (fun p => p.1)
  let recip := kept.map (fun p => p.2)
  let perm := order (avail.map indentOf)
  (permuteBy avail perm, permuteBy recip perm, degenRows s.matrix s.result)

/-- `System._lazy_get_solution_`: setup, triangularize, diagonalize,
tidy. -/
def solution (sys : System) : List Row × List Row × List Row :=
  tidy (diag sys.dim sys.nAvail (upper sys.dim sys.nAvail (setup sys)))

/-- `System.available`. -/
def available (sys : System) : List Row := (solution sys).1

/-- `System.recipe`. -/
def recipe (sys : System) : List Row := (solution sys).2.1

/-- `System.kernel`. -/
def kernel (sys : System) : List Row := (solution sys).2.2

/-- The walk of `System._lazy_get_inverse_` over canonical basis indices
`i` (bounded by `dim` via the fuel) while Available rows remain
(`j < can.length`): a matched row appends its own leading entry as a
denominator to the recipe copy in `how` and is gcd/sign-normalised, and
its off-index non-zero entries are recorded in `co` (indexed by the
already-incremented `j`); an unmatched index consumes the next kernel row
extended with a 0 denominator, or an all-zero row once those run out. -/
def invLoop (can ker : List Row) (ava : Nat) :
    Nat → Nat → Nat → Nat → List Row → List Nat → List Row × List Nat
  | 0, _, _, _, how, co => (how, co)
  | fuel + 1, i, j, k, how, co =>
    if j < can.length then
      let row := can.getD j []
      if row.getD i 0 ≠ 0 then
        let h0 := how.getD i [] ++ [row.getD i 0]
        let f0 : Int := hcf h0
        let f : Int := if f0 ≠ 0 ∧ h0.getLastD 0 < 0 then -f0 else f0
        let h1 := if 1 < f ∨ f < 0 then h0.map (fun x => x / f) else h0
        let co1 :=
          if (row.take i).any (fun x => x != 0) ∨ (row.drop (i + 1)).any (fun x => x != 0)
          then co ++ [j + 1] else co
        invLoop can ker ava fuel (i + 1) (j + 1) k (how.set i h1) co1
      else if k < ker.length then
        invLoop can ker ava fuel (i + 1) j (k + 1) (pyInsert how i (ker.getD k [] ++ [0])) co
      else
        invLoop can ker ava fuel (i + 1) j k (pyInsert how i (List.replicate (ava + 1) 0)) co
    else (how, co)

/-- `System._lazy_get_inverse_`: run the walk on the tidied solution and
either raise `Irreducible composites` with the offending indices or
return the assembled inverse. -/
def inverse (sys : System) : Except SysError (List Row) :=
  match invLoop (solution sys).1 (solution sys).2.2 sys.nAvail sys.dim 0 0 0
      (solution sys).2.1 [] with
  | (h, []) => .ok h
  | (_, co) => .error (.irreducibleComposites co)

/-- `System.obtain(row, scale=1)`: pad/split the row exactly as `contract`
does (overwriting `scale` on every path), then combine the columns of the
inverse — including, as in the source, the trailing denominator column,
since the loop runs over `len(inverse[0])` columns. -/
def obtain (sys : System) (row : Row) (scale : Int := 1) : Except SysError Row :=
  if sys.dim + 1 < row.length then .error (.tooManyEntries row)
  else
    let r1 := pad row sys.dim
    let r2 := if sys.dim < r1.length then r1.take sys.dim else r1
    let sc : Int := if sys.dim < r1.length then r1.getD sys.dim 0 else 1
    match inverse sys with
    | .error e => .error e
    | .ok inv =>
      .ok (denominate ((List.range (inv.getD 0 []).length).map
            (fun j => dragwith inv j r2)) sc)

/-- The property `System.__confirm(left, out)` asserts: for every canonical
basis index `j`, the exact rational dot product of `left` with column `j`
of the problem equals `out[j]`. -/
def confirms (sys : System) (left out : Row) : Prop :=
  ∀ j < sys.dim,
    (dragwith sys.problem j left).1 = out.getD j 0 * (dragwith sys.problem j left).2

instance (sys : System) (left out : Row) : Decidable (confirms sys left out) := by
  unfold confirms; infer_instance

/-- The property `System.__check(i, row)` asserts of inverse row `row`
(numerators plus trailing denominator `scale`): its numerators dotted with
problem column `j` give `den * scale` when `j = i` and 0 otherwise. -/
def checkRow (sys : System) (i : Nat) (row : Row) : Prop :=
  ∀ j < sys.dim,
    (dragwith sys.problem j row.dropLast).1 =
      if j = i then (dragwith sys.problem j row.dropLast).2 * row.getLastD 0 else 0

instance (sys : System) (i : Nat) (row : Row) : Decidable (checkRow sys i row) := by
  unfold checkRow; infer_instance

/-- The reduction invariant stated by the spec and by `__setup`'s
docstring: every working-result row, contracted with the problem, yields
the matching working-matrix row, exactly as rationals. -/
def invariantHolds (sys : System) (s : WState) : Prop :=
  ∀ i < s.matrix.length, ∀ j < sys.dim,
    (dragwith sys.problem j (s.result.getD i [])).1 =
      (s.matrix.getD i []).getD j 0 * (dragwith sys.problem j (s.result.getD i [])).2

instance (sys : System) (s : WState) : Decidable (invariantHolds sys s) := by
  unfold invariantHolds; infer_instance

/-- `System(3, [(1,1,1),(2,1,3)])` after ingestion. -/
def sysA : System := ⟨3, 2, [[1,1,1,1],[2,1,3,1]]⟩

/-- `System(4, [(1,1,1,1),(2,1,3,3),(1,2,0,2)])` after ingestion. -/
def sysB : System := ⟨4, 3, [[1,1,1,1,1],[2,1,3,3,1],[1,2,0,2,1]]⟩

/-- `System(3, [(1,0,0),(1,0,-1)])` after ingestion. -/
def sysC : System := ⟨3, 2, [[1,0,0,1],[1,0,-1,1]]⟩

/-- `System(2, [(1,0),(0,1)])` after ingestion. -/
def sysD : System := ⟨2, 2, [[1,0,1],[0,1,1]]⟩

/-- `System(2, [(1,0),(2,0)])` after ingestion. -/
def sysE : System := ⟨2, 2, [[1,0,1],[2,0,1]]⟩

theorem pad_length (r : Row) (n : Nat) : (pad r n).length = max r.length n := by
  simp [pad]
  omega

theorem pad_of_le {r : Row} {n : Nat} (h : n ≤ r.length) : pad r n = r := by
  simp [pad, Nat.sub_eq_zero_of_le h]

theorem ingestRow_error_iff (n : Nat) (row : Row) :
    (∃ e, ingestRow n row = .error e ∧ isMalformedRowError e) ↔
      n + 1 < row.length ∨ (row.length = n + 1 ∧ row.getD n 0 = 0) := by
  unfold ingestRow
  split_ifs with h1 h2 h3
  · exact ⟨fun _ => Or.inl h1, fun _ => ⟨.overLongRow row, rfl, trivial⟩⟩
  · constructor
    · rintro ⟨e, he, -⟩; cases he
    · intro hb
      have hl := pad_length row n
      rw [h2] at hl
      omega
  · constructor
    · intro _
      have hl := pad_length row n
      have hlen : row.length = n + 1 := by omega
      have hp : pad row n = row := pad_of_le (by omega)
      rw [hp] at h3
      exact Or.inr ⟨hlen, h3⟩
    · intro _; exact ⟨.zeroDenominator row, rfl, trivial⟩
  · constructor
    · rintro ⟨e, he, -⟩; cases he
    · intro hb
      rcases hb with h | ⟨hlen, h0⟩
      · exact absurd h h1
      · have hp : pad row n = row := pad_of_le (by omega)
        rw [hp] at h3
        exact absurd h0 h3

theorem ingestRow_error_malformed (n : Nat) (row : Row) (e : SysError)
    (h : ingestRow n row = .error e) : isMalformedRowError e := by
  unfold ingestRow at h
  split_ifs at h <;> cases h <;> trivial

theorem ingest_error_iff (n : Nat) (rows : List Row) :
    (∃ e, ingest n rows = .error e ∧ isMalformedRowError e) ↔
      ∃ row ∈ rows, n + 1 < row.length ∨ (row.length = n + 1 ∧ row.getD n 0 = 0) := by
  induction rows with
  | nil => simp [ingest]
  | cons row rest ih =>
    constructor
    · rintro ⟨e, he, hm⟩
      rw [ingest] at he
      cases hr : ingestRow n row with
      | error e1 =>
        rw [hr] at he
        cases he
        exact ⟨row, List.mem_cons_self row rest,
          (ingestRow_error_iff n row).1 ⟨_, hr, hm⟩⟩
      | ok r =>
        rw [hr] at he
        cases hrest : ingest n rest with
        | error e2 =>
          rw [hrest] at he
          cases he
          obtain ⟨row2, hmem, hbad⟩ := ih.1 ⟨_, hrest, hm⟩
          exact ⟨row2, List.mem_cons_of_mem row hmem, hbad⟩
        | ok rs =>
          rw [hrest] at he
          cases he
    · rintro ⟨row2, hmem, hbad⟩
      rcases List.mem_cons.1 hmem with rfl | hmem2
      · obtain ⟨e, he, hm⟩ := (ingestRow_error_iff n row2).2 hbad
        exact ⟨e, by rw [ingest, he], hm⟩
      · obtain ⟨e, he, hm⟩ := ih.2 ⟨row2, hmem2, hbad⟩
        cases hr : ingestRow n row with
        | error e1 =>
          exact ⟨e1, by rw [ingest, hr], ingestRow_error_malformed n row e1 hr⟩
        | ok r =>
          exact ⟨e, by rw [ingest, hr, he], hm⟩

/-- C1: the claim "for every System constructed without error,
`recipe · problem == available` exactly" fails on the code.  For
`System(3, [(1,1,1),(2,1,3)])` the first `__take` of triangularization
divides the result row by the sign-adjusted hcf over its own length but
the (longer) matrix row only over that same length, so recipe row 0 ends
up as `(-1, 1)` while available row 0 is `(1, 0, 0)`: their exact dot
with problem column 2 is `2/1`, not 0. -/
theorem c1_recipe_roundtrip_fails :
    mkSystem 3 [[1,1,1],[2,1,3]] = .ok sysA ∧
    recipe sysA = [[-1,1],[2,-1]] ∧
    available sysA = [[1,0,0],[0,1,1]] ∧
    dragwith sysA.problem 2 [-1,1] = (2, 1) ∧
    ¬ confirms sysA [-1,1] [1,0,0] :=
  ⟨rfl, rfl, rfl, rfl, by decide⟩

/-- C2: the claim "every kernel row `k` satisfies `k · problem == 0`"
fails on the code.  For `System(4, [(1,1,1,1),(2,1,3,3),(1,2,0,2)])` the
corrupted pivot row produced by the first `__take` later eliminates row 2
to an all-zero matrix row whose result row `(-3, 1, 1)` lands in the
kernel although its exact dot with problem column 3 is `2/1`, not 0. -/
theorem c2_kernel_validity_fails :
    mkSystem 4 [[1,1,1,1],[2,1,3,3],[1,2,0,2]] = .ok sysB ∧
    kernel sysB = [[-3,1,1]] ∧
    dragwith sysB.problem 3 [-3,1,1] = (2, 1) ∧
    ¬ confirms sysB [-3,1,1] [0,0,0,0] :=
  ⟨rfl, rfl, rfl, by decide⟩

/-- C3: the claim "whenever accessing inverse succeeds,
`inverse · problem` is the identity scaled by each row's denominator"
fails on the code.  For `System(3, [(1,0,0),(1,0,-1)])` inverse access
succeeds with rows `((1,0,1),(0,0,0),(-1,1,1))`, but row 2's numerators
`(-1,1)` dotted with problem column 2 give `-1/1`, not the required
`den * 1 = 1`. -/
theorem c3_inverse_correctness_fails :
    mkSystem 3 [[1,0,0],[1,0,-1]] = .ok sysC ∧
    inverse sysC = .ok [[1,0,1],[0,0,0],[-1,1,1]] ∧
    dragwith sysC.problem 2 [-1,1] = (-1, 1) ∧
    ¬ checkRow sysC 2 [-1,1,1] :=
  ⟨rfl, rfl, rfl, by decide⟩

/-- C4: the claim "`WorkingResult · Problem == WorkingMatrix` is preserved
by every row operation" fails on the code.  For
`System(3, [(1,1,1),(2,1,3)])` the invariant holds after `__setup` and the
first `__select` changes nothing, but the very first combine-and-reduce
`__take(0, 2, 1, 1)` of `__upper` (pivot entry 1, cleared entry 2) breaks
it: the sign-flip division covers only `len(result row) = 2` entries of
the 3-entry matrix row. -/
theorem c4_invariant_not_preserved :
    invariantHolds sysA (setup sysA) ∧
    select 3 2 (setup sysA) 0 = setup sysA ∧
    entry (setup sysA) 0 0 = 1 ∧
    entry (setup sysA) 1 0 = 2 ∧
    ¬ invariantHolds sysA (takeOp (setup sysA) 0 2 1 1) :=
  ⟨by decide, rfl, rfl, rfl, by decide⟩

/-- C5: the claim "`contract(obtain(r))` equals `r`" fails on the code:
`obtain` combines over all `len(inverse[0]) = nAvail + 2` columns of the
inverse, including its trailing denominator column, so its output has
`nAvail + 2` entries and `contract` always rejects it as over-long.  Here
`System(2, [(1,0),(0,1)])` with `r = (1,0)` gives `obtain(r) = (1,0,1,1)`
and `contract` raises `too many entries`. -/
theorem c5_obtain_not_contractible :
    inverse sysD = .ok [[1,0,1],[0,1,1]] ∧
    obtain sysD [1,0] = .ok [1,0,1,1] ∧
    contract sysD [1,0,1,1] = .error (.tooManyEntries [1,0,1,1]) :=
  ⟨rfl, rfl, rfl⟩

/-- C6: the claim "inverse has exactly one row per basis index 0..n-1,
with kernel/zero filler rows for unmatched indices" fails on the code: the
walk stops as soon as the Available rows are exhausted.  For
`System(2, [(1,0),(2,0)])` the kernel row `(-2,1)` is available as filler,
yet the returned inverse is `((1,0,1),)` with a single row — basis index 1
gets no row at all (the class docstring and `check()`'s
`dim == len(inv)` assertion require two). -/
theorem c6_inverse_truncated :
    mkSystem 2 [[1,0],[2,0]] = .ok sysE ∧
    kernel sysE = [[-2,1]] ∧
    inverse sysE = .ok [[1,0,1]] ∧
    sysE.dim = 2 :=
  ⟨rfl, rfl, rfl, rfl⟩

/-- C7: the claim that after an `Irreducible composites` error the
available/recipe/kernel triple is still accessible *and still satisfies*
`recipe · problem == available` fails on the code.  For
`System(4, [(1,1,1,1),(2,1,3,3),(1,2,0,2)])` inverse access does raise the
error with offending indices `[1, 2]` and the triple is unchanged, but
recipe row 0 `(-1,1,0)` dotted with problem column 3 gives `2/1` while
available row 0 is `(1,0,2,0)` — the validity clause is violated. -/
theorem c7_composite_error_invalid_triple :
    inverse sysB = .error (.irreducibleComposites [1, 2]) ∧
    available sysB = [[1,0,2,0],[0,1,-1,1]] ∧
    recipe sysB = [[-1,1,0],[2,-1,0]] ∧
    dragwith sysB.problem 3 [-1,1,0] = (2, 1) ∧
    ¬ confirms sysB [-1,1,0] [1,0,2,0] :=
  ⟨rfl, rfl, rfl, rfl, by decide⟩

/-- C8 counterexample: the claim's concrete values are wrong for
`available` and `recipe`: for `System(2, [(1,0),(0,1)])` the code returns
plain integer rows `((1,0),(0,1))` without trailing denominators (only
`problem` and `inverse` rows carry one), not `((1,0,1),(0,1,1))`. -/
theorem c8_available_has_no_denominator :
    available sysD = [[1,0],[0,1]] ∧
    ([[1,0],[0,1]] : List Row) ≠ [[1,0,1],[0,1,1]] :=
  ⟨rfl, by decide⟩

/-- C8 (amended): `System(2, [(1,0),(0,1)])` yields
`available == ((1,0),(0,1))`, `recipe == ((1,0),(0,1))`, `kernel == ()` —
all plain integer rows without a trailing denominator — and
`inverse == ((1,0,1),(0,1,1))`, whose rows do carry their denominator as
last entry. -/
theorem c8_identity_system_values :
    mkSystem 2 [[1,0],[0,1]] = .ok sysD ∧
    available sysD = [[1,0],[0,1]] ∧
    recipe sysD = [[1,0],[0,1]] ∧
    kernel sysD = [] ∧
    inverse sysD = .ok [[1,0,1],[0,1,1]] :=
  ⟨rfl, rfl, rfl, rfl, rfl⟩

/-- C9: construction raises a malformed-row error iff some input row has
more than `n + 1` entries, or has exactly `n + 1` entries with last entry
(the explicit denominator) zero; the error happens inside `mkSystem`, so
no `System` value is produced. -/
theorem c9_malformed_iff (n : Nat) (rows : List Row) :
    (∃ e, mkSystem n rows = .error e ∧ isMalformedRowError e) ↔
      ∃ row ∈ rows, n + 1 < row.length ∨ (row.length = n + 1 ∧ row.getD n 0 = 0) := by
  rw [← ingest_error_iff]
  unfold mkSystem
  cases h : ingest n rows <;> simp [h, Except.map]

/-- C10: the `scale` argument of `obtain` never affects its result: it is
overwritten on every path (by the row's explicit denominator when the
padded row is longer than `dim`, by 1 otherwise) before being used, so
`obtain(row, s)` equals `obtain(row)` (whose default `scale` is 1),
returning the same value or the same error. -/
theorem c10_obtain_scale_ignored (sys : System) (r : Row) (s : Int)
    (h : r.length ≤ sys.dim + 1) :
    obtain sys r s = obtain sys r 1 := rfl

/-- C10 witness: a concrete instance of the scale-irrelevance theorem. -/
theorem c10_obtain_scale_ignored_wit :
    ([1,0] : Row).length ≤ sysD.dim + 1 ∧ obtain sysD [1,0] 5 = obtain sysD [1,0] 1 :=
  ⟨by decide, c10_obtain_scale_ignored sysD [1,0] 5 (by decide)⟩
